import Mathlib

set_option autoImplicit false

/-!
Verification of the logwarts log-ingestion pipeline (Go) against its
natural-language specification.

The development shallowly embeds the core pipeline of `logwarts.go` (and the
sequential variant of `ParseLogs`):

* `LogEntry`           — the Go struct `LogEntry` (the Go field `Type` is
                         renamed `EntryType`, `Type` being a Lean keyword);
                         the timestamp type is a parameter `τ`, and Go's
                         `time.Parse(time.RFC3339Nano, ·)` is abstracted as a
                         function `pt : String → Option τ`.
* `parseLogLine`       — the regex tokenizer; the Go code scans the line with
                         the RE2 pattern matching either a double-quoted run
                         (quotes stripped) or a maximal run of non-space
                         characters, leftmost-first.  Embedded as a
                         fuel-indexed character scanner with exactly that
                         leftmost-first behaviour.
* `mapEntry`           — the field-to-record mapping done inside `logWorker`
                         (identical in the sequential `ParseLogs`).  Go's
                         bounds-checked indexing `fields[26]` is embedded via
                         `List.get?`, an absent index giving the `.outOfRange`
                         result (a Go runtime index-out-of-range failure).
* `includeEntry`       — the short-circuiting filter loop.
* `workerRun`          — one worker draining its share of the line channel:
                         per pulled line it increments the processed counter,
                         tokenizes, maps, filters and emits.
* `runConcurrent`      — the fan-out/fan-in pipeline: an arbitrary
                         distribution of the lines over workers, results
                         combined; a crash in any worker crashes the run.
* `seqProcessLines`    — the per-line loop of the sequential `ParseLogs`.
* `getReader`          — the gzip-magic probe and rewind; gzip decompression
                         (Go stdlib, outside this repository) is a parameter.
* `ParseLogs`          — the public entry point over an abstract file system.
* `FilterByTargetProcessingTime` — the numeric-threshold filter;
                         `strconv.ParseFloat` (Go stdlib) is abstracted as a
                         parameter into a linearly ordered type.
-/

/-- The double-quote character, written via its code point. -/
def quoteChar : Char := Char.ofNat 34

/-- One parsed log entry: the Go struct `LogEntry`.  The Go field `Type` is
renamed `EntryType` (Lean keyword); all other field names are kept.  `τ` is
the timestamp type (Go `time.Time`). -/
structure LogEntry (τ : Type) where
  EntryType              : String
  Timestamp              : τ
  ELB                    : String
  Client                 : String
  Target                 : String
  RequestProcessingTime  : String
  TargetProcessingTime   : String
  ResponseProcessingTime : String
  ELBStatusCode          : String
  TargetStatusCode       : String
  ReceivedBytes          : String
  SentBytes              : String
  Request                : String
  UserAgent              : String
  SSLConnectionCipher    : String
  SSLProtocol            : String
  TargetGroupArn         : String
  TraceID                : String
  DomainName             : String
  ChosenCertArn          : String
  MatchedRulePriority    : String
  RequestCreationTime    : String
  ActionsExecuted        : String
  RedirectURL            : String
  LambdaErrorReason      : String
  TargetPortList         : String
  TargetStatusCodeList   : String
  Classification         : String
  ClassficationReason    : String
deriving DecidableEq

/-- Go `\s` for the tokenizer regex: space, tab, newline, form feed,
carriage return. -/
def isSpaceGo (c : Char) : Bool :=
  c = ' ' || c = '\t' || c = '\n' || c = Char.ofNat 12 || c = '\r'

/-- Character scanner equivalent to Go's leftmost-first search of the pattern
`"([^"]*)"|(\S+)` over the line, as run by `FindAllStringSubmatch`: skip
whitespace; at a double quote that has a matching closing quote, the token is
the run between the quotes; otherwise the token is the maximal run of
non-space characters.  The fuel (one unit per consumed character, at least
one character consumed per emitted token or skipped space) makes the
recursion structural. -/
def tokenizeAux : Nat → List Char → List String
  | 0, _ => []
  | _, [] => []
  | fuel + 1, c :: rest =>
    if isSpaceGo c then
      tokenizeAux fuel rest
    else if c = quoteChar ∧ quoteChar ∈ rest then
      let content := rest.takeWhile (· ≠ quoteChar)
      String.mk content :: tokenizeAux fuel ((rest.drop content.length).drop 1)
    else
      let run := (c :: rest).takeWhile (fun d => !isSpaceGo d)
      String.mk run :: tokenizeAux fuel ((c :: rest).drop run.length)

/-- The Go function `parseLogLine`: tokenize one line. -/
def parseLogLine (line : String) : List String :=
  tokenizeAux line.length line.toList

/-- Go `strings.Trim(s, "\"")`: remove all leading and trailing double-quote
characters. -/
def goTrimQuotes (s : String) : String :=
  String.mk (((s.toList.dropWhile (· = quoteChar)).reverse.dropWhile
    (· = quoteChar)).reverse)

/-- Result of mapping one token sequence inside `logWorker` / the sequential
`ParseLogs` loop: a record, a silent reject (`continue`), or a Go runtime
index-out-of-range failure. -/
inductive MapResult (τ : Type) where
  | reject     : MapResult τ
  | outOfRange : MapResult τ
  | ok         : LogEntry τ → MapResult τ
deriving DecidableEq

/-- The record built from the first 25 tokens (`fields[0]` … `fields[24]`),
tail fields left at Go's zero value `""`.  Mirrors the struct literal in
`logWorker`; `Request` and `UserAgent` are quote-trimmed as in the source. -/
def baseEntry {τ : Type} (ts : τ) (fields : List String) : LogEntry τ where
  EntryType              := fields.getD 0 ""
  Timestamp              := ts
  ELB                    := fields.getD 2 ""
  Client                 := fields.getD 3 ""
  Target                 := fields.getD 4 ""
  RequestProcessingTime  := fields.getD 5 ""
  TargetProcessingTime   := fields.getD 6 ""
  ResponseProcessingTime := fields.getD 7 ""
  ELBStatusCode          := fields.getD 8 ""
  TargetStatusCode       := fields.getD 9 ""
  ReceivedBytes          := fields.getD 10 ""
  SentBytes              := fields.getD 11 ""
  Request                := goTrimQuotes (fields.getD 12 "")
  UserAgent              := goTrimQuotes (fields.getD 13 "")
  SSLConnectionCipher    := fields.getD 14 ""
  SSLProtocol            := fields.getD 15 ""
  TargetGroupArn         := fields.getD 16 ""
  TraceID                := fields.getD 17 ""
  DomainName             := fields.getD 18 ""
  ChosenCertArn          := fields.getD 19 ""
  MatchedRulePriority    := fields.getD 20 ""
  RequestCreationTime    := fields.getD 21 ""
  ActionsExecuted        := fields.getD 22 ""
  RedirectURL            := fields.getD 23 ""
  LambdaErrorReason      := fields.getD 24 ""
  TargetPortList         := ""
  TargetStatusCodeList   := ""
  Classification         := ""
  ClassficationReason    := ""

/-- The body of `logWorker` for one token sequence (identical in the
sequential `ParseLogs`):

* fewer than 25 tokens: the line is skipped (`reject`);
* `time.Parse` failure on `fields[1]`: `continue` (`reject`);
* otherwise build the record; when `len(fields) > 25` the Go code assigns
  `entry.TargetPortList = fields[25]` and — without any further presence
  check — `entry.TargetStatusCodeList = fields[26]`, so an absent index 26
  is a runtime out-of-range failure, embedded via `List.get?`; tokens 27 and
  28 are guarded by `len(fields) > 27` and `len(fields) > 28`. -/
def mapEntry {τ : Type} (pt : String → Option τ) (fields : List String) :
    MapResult τ :=
  if 25 ≤ fields.length then
    match pt (fields.getD 1 "") with
    | none => .reject
    | some ts =>
      let e := baseEntry ts fields
      if 25 < fields.length then
        match fields.get? 26 with
        | none => .outOfRange
        | some f26 =>
          let e := { e with TargetPortList := fields.getD 25 "",
                            TargetStatusCodeList := f26 }
          let e := if 27 < fields.length then
                     let e := { e with Classification := fields.getD 27 "" }
                     if 28 < fields.length then
                       { e with ClassficationReason := fields.getD 28 "" }
                     else e
                   else e
          .ok e
      else .ok e
  else .reject

/-- The filter loop of `logWorker`: `include` starts true and the loop breaks
at the first predicate returning false. -/
def includeEntry {τ : Type} : List (LogEntry τ → Bool) → LogEntry τ → Bool
  | [], _ => true
  | f :: fs, e => if f e then includeEntry fs e else false

/-- A concrete stand-in for the abstract timestamp parser in closed
instances: accepts exactly the non-empty all-digit strings.  (The pipeline
definitions take the parser as a parameter, abstracting Go's
`time.Parse(time.RFC3339Nano, ·)`.) -/
def parseNatToken (s : String) : Option Nat :=
  if s.toList ≠ [] ∧ s.toList.all (fun c => c.isDigit) then
    some (s.toList.foldl (fun n c => n * 10 + (c.toNat - 48)) 0)
  else none

/-- The four optional tail fields of a mapping result, `none` when no record
was produced.  Used to state tail-field gating facts. -/
def tailFields {τ : Type} : MapResult τ → Option (String × String × String × String)
  | .ok e => some (e.TargetPortList, e.TargetStatusCodeList, e.Classification,
      e.ClassficationReason)
  | _ => none

/-- A token with no leading and no trailing double quote — the shape every
token of a well-formed log line has (the tokenizer already strips enclosing
quotes), so that the mapper's defensive re-trim is the identity. -/
def wellFormedToken (t : String) : Prop :=
  t.toList.head? ≠ some quoteChar ∧ t.toList.getLast? ≠ some quoteChar

instance (t : String) : Decidable (wellFormedToken t) := by
  unfold wellFormedToken; infer_instance

/-- One pulled line inside `logWorker` maps to an out-of-range failure. -/
def lineCrashes {τ : Type} (pt : String → Option τ) (line : String) : Prop :=
  mapEntry pt (parseLogLine line) = .outOfRange

/-- The record one line contributes to the matched-record channel: `some`
exactly when the mapper produces a record and every filter accepts it. -/
def emitLine {τ : Type} (pt : String → Option τ)
    (filters : List (LogEntry τ → Bool)) (line : String) :
    Option (LogEntry τ) :=
  match mapEntry pt (parseLogLine line) with
  | .ok e => if includeEntry filters e then some e else none
  | _ => none

/-- One worker goroutine of `logWorker` draining its share of the line
channel: for each pulled line the shared counter is incremented (before any
parsing), the line is tokenized, mapped and filtered, and matched records go
out.  The result is the worker's counter contribution and emitted records;
an out-of-range failure on any line crashes the run (Go panic), modelled as
`Except.error`. -/
def workerRun {τ : Type} (pt : String → Option τ)
    (filters : List (LogEntry τ → Bool)) :
    List String → Except Unit (Nat × List (LogEntry τ))
  | [] => .ok (0, [])
  | line :: rest =>
    match mapEntry pt (parseLogLine line) with
    | .outOfRange => .error ()
    | .reject =>
      match workerRun pt filters rest with
      | .error u => .error u
      | .ok (c, out) => .ok (c + 1, out)
    | .ok e =>
      match workerRun pt filters rest with
      | .error u => .error u
      | .ok (c, out) =>
        .ok (c + 1, if includeEntry filters e then e :: out else out)

/-- Fan-in of the per-worker results: counters add (each atomic increment is
preserved), emitted records are collected, and a crash in any worker crashes
the pipeline. -/
def combineResults {τ : Type} :
    List (Except Unit (Nat × List (LogEntry τ))) →
      Except Unit (Nat × List (LogEntry τ))
  | [] => .ok (0, [])
  | r :: rs =>
    match r with
    | .error _ => .error ()
    | .ok (c, out) =>
      match combineResults rs with
      | .error _ => .error ()
      | .ok (c', out') => .ok (c + c', out ++ out')

/-- The concurrent pipeline of `ParseLogs`/`logWorker` on a given
distribution of the input lines over the workers (`parts` lists each
worker's share; channel fan-out means every line goes to exactly one
worker): final counter value and the matched records.  Emission order across
workers is unspecified, so facts about the output are stated up to multiset
equality. -/
def runConcurrent {τ : Type} (pt : String → Option τ)
    (filters : List (LogEntry τ → Bool)) (parts : List (List String)) :
    Except Unit (Nat × List (LogEntry τ)) :=
  combineResults (parts.map (workerRun pt filters))

/-- The per-line loop of the sequential `ParseLogs` (same tokenizer, mapper
and filter chain, emitting in input order). -/
def seqProcessLines {τ : Type} (pt : String → Option τ)
    (filters : List (LogEntry τ → Bool)) :
    List String → Except Unit (List (LogEntry τ))
  | [] => .ok []
  | line :: rest =>
    match mapEntry pt (parseLogLine line) with
    | .outOfRange => .error ()
    | .reject => seqProcessLines pt filters rest
    | .ok e =>
      match seqProcessLines pt filters rest with
      | .error u => .error u
      | .ok out => .ok (if includeEntry filters e then e :: out else out)

deriving instance DecidableEq for Except

/-- Errors surfaced by the pipeline entry point. -/
inductive PipelineError where
  | ioFailure   : PipelineError
  | probeEof    : PipelineError
  | gzipFailure : PipelineError
  | crashed     : PipelineError
deriving DecidableEq

/-- What the abstract file system holds at a path: nothing, a path that
fails to open for another reason, or a readable stream.  A stream delivers
its bytes and then ends — cleanly at end-of-file when the flag is `false`,
or with a mid-stream I/O error after the delivered bytes when it is `true`
(`bufio.Scanner` still tokenizes everything delivered before such an error:
once a read error is recorded it finishes splitting the buffered data,
including a final unterminated line, and only then stops). -/
inductive FileResult where
  | absent  : FileResult
  | ioError : FileResult
  | content : List Nat → Bool → FileResult

/-- The Go function `getReader`: read the first two bytes (on an empty file
the read itself fails with end-of-file; on a one-byte file the second probe
byte stays at its zero value), seek back to the start, and hand back a gzip
reader exactly when the probe saw `0x1F 0x8B`, the raw stream otherwise.
The result is the logical byte content the line scanner will see; `gunzip`
abstracts the Go stdlib gzip reader. -/
def getReader (gunzip : List Nat → Except PipelineError (List Nat))
    (bytes : List Nat) : Except PipelineError (List Nat) :=
  match bytes with
  | [] => .error .probeEof
  | _ :: _ =>
    if bytes.getD 0 0 = 31 ∧ bytes.getD 1 0 = 139 then gunzip bytes
    else .ok bytes

/-- `bufio.ScanLines` line splitting: split at each newline byte; a final
fragment without a trailing newline is still a line; an empty input yields
no lines.  Fuel-indexed (at least one character consumed per step). -/
def splitLinesAux : Nat → List Char → List (List Char)
  | 0, _ => []
  | _, [] => []
  | fuel + 1, cs =>
    let line := cs.takeWhile (· ≠ '\n')
    match cs.drop line.length with
    | [] => [line]
    | _ :: rest => line :: splitLinesAux fuel rest

/-- `bufio.ScanLines` also strips one trailing carriage return per line. -/
def dropCR (l : List Char) : List Char :=
  if l.getLast? = some '\r' then l.dropLast else l

/-- The lines the scanner produces from a logical byte stream. -/
def linesOfBytes (bytes : List Nat) : List String :=
  let cs := bytes.map Char.ofNat
  (splitLinesAux cs.length cs).map (fun l => String.mk (dropCR l))

/-- The Go function `ParseLogs` (concurrent entry point) over the abstract
file system `fs`:

* a path that fails to open with not-found returns success with nothing
  processed; any other open failure is returned to the caller;
* on a stream that delivers no bytes the two-byte probe's own `Read` fails —
  with the stream's I/O error, or with end-of-file on a clean empty file —
  and that error is returned (a stream delivering at least one byte
  satisfies the single probe `Read`, the error only arriving on a later
  read);
* otherwise the probe decides the branch, the content is split into lines
  and the lines are processed (worker fan-out collapsed to a single
  traversal — distribution-independence of the outcome is proved
  separately);
* a mid-stream I/O error after the probe is NOT returned on the plain
  branch: the producer goroutine drops `s.Err()` on the floor (it only loops
  on `s.Scan()` and then closes the channel), the scanner has already
  delivered every complete line plus the final fragment, and
  `reader.Close()` is then `file.Close()`, which reports nil after a read
  error — so the run returns success over the delivered prefix.  On the
  gzip branch `reader.Close()` is `gzip.Reader.Close()`, which returns the
  decompressor's sticky non-EOF error, so there the failure does surface
  (after the prefix was already processed; the model collapses such a run
  to the returned error). -/
def ParseLogs {τ : Type} (gunzip : List Nat → Except PipelineError (List Nat))
    (pt : String → Option τ) (fs : String → FileResult) (filename : String)
    (filters : List (LogEntry τ → Bool)) :
    Except PipelineError (Nat × List (LogEntry τ)) :=
  match fs filename with
  | .absent => .ok (0, [])
  | .ioError => .error .ioFailure
  | .content bytes readFails =>
    match bytes with
    | [] => .error (if readFails then .ioFailure else .probeEof)
    | _ :: _ =>
      match getReader gunzip bytes with
      | .error e => .error e
      | .ok logical =>
        match workerRun pt filters (linesOfBytes logical) with
        | .error _ => .error .crashed
        | .ok r =>
          if readFails ∧ bytes.getD 0 0 = 31 ∧ bytes.getD 1 0 = 139 then
            .error .ioFailure
          else .ok r

/-- The Go function `FilterByTargetProcessingTime`: parse the
target-processing-time field as a number (`strconv.ParseFloat`, abstracted
as `parseFloat` into a linearly ordered numeric type) and include the record
exactly when parsing succeeds and the value is at least the threshold; a
parse failure returns false. -/
def FilterByTargetProcessingTime {τ F : Type} [LinearOrder F]
    (parseFloat : String → Option F) (processingTime : F) :
    LogEntry τ → Bool := fun entry =>
  match parseFloat entry.TargetProcessingTime with
  | none => false
  | some t => decide (processingTime ≤ t)

/-- The record the mapper produces on a token sequence it does not reject
and does not crash on: the base record plus the tail fields its count-gated
assignments reach. -/
def mkEntry {τ : Type} (ts : τ) (fields : List String) : LogEntry τ :=
  { baseEntry ts fields with
    TargetPortList := if 25 < fields.length then fields.getD 25 "" else ""
    TargetStatusCodeList := if 25 < fields.length then fields.getD 26 "" else ""
    Classification := if 27 < fields.length then fields.getD 27 "" else ""
    ClassficationReason := if 28 < fields.length then fields.getD 28 "" else "" }

/-- A space-separated line of `n` unquoted tokens `"0" … "n-1"`, used as a
concrete input in closed instances. -/
def lineN (n : Nat) : String :=
  String.intercalate " " ((List.range n).map toString)

/-- A toy decompressor/compressor pair for closed instances: the compressor
prepends the two magic bytes, the decompressor drops the first two bytes. -/
def gunzipModel : List Nat → Except PipelineError (List Nat) :=
  fun l => .ok (l.drop 2)

/-- A concrete file system for closed instances: one missing path, every
other path failing to open with a non-not-found error. -/
def fsModel : String → FileResult :=
  fun name => if name = "gone" then .absent else .ioError

lemma goTrimQuotes_of_wellFormed (t : String) (h : wellFormedToken t) :
    goTrimQuotes t = t := by
  obtain ⟨h1, h2⟩ := h
  unfold goTrimQuotes
  have drop1 : t.toList.dropWhile (· = quoteChar) = t.toList := by
    cases ht : t.toList with
    | nil => simp
    | cons c cs =>
      rw [List.dropWhile_cons_of_neg]
      simp only [ht, List.head?] at h1
      simpa using fun hc => h1 (by rw [hc])
  rw [drop1]
  have drop2 : t.toList.reverse.dropWhile (· = quoteChar) = t.toList.reverse := by
    cases ht : t.toList.reverse with
    | nil => simp
    | cons c cs =>
      rw [List.dropWhile_cons_of_neg]
      have : t.toList.getLast? = some c := by
        rw [← List.head?_reverse, ht]; rfl
      simpa using fun hc => h2 (by rw [this, hc])
  rw [drop2, List.reverse_reverse]
  cases t; rfl

lemma workerRun_ok_of_no_crash {τ : Type} (pt : String → Option τ)
    (filters : List (LogEntry τ → Bool)) (lines : List String)
    (h : ∀ l ∈ lines, ¬ lineCrashes pt l) :
    workerRun pt filters lines =
      .ok (lines.length, lines.filterMap (emitLine pt filters)) := by
  induction lines with
  | nil => rfl
  | cons line rest ih =>
    have hline := h line (by simp)
    have hrest := ih fun l hl => h l (by simp [hl])
    unfold workerRun
    unfold lineCrashes at hline
    cases hm : mapEntry pt (parseLogLine line) with
    | outOfRange => exact absurd hm hline
    | reject =>
      simp only [hrest, emitLine, List.filterMap_cons, hm, List.length_cons]
    | ok e =>
      simp only [hrest, emitLine, List.filterMap_cons, hm, List.length_cons]
      by_cases hinc : includeEntry filters e
      · simp [hinc]
      · simp [hinc]

lemma workerRun_error_of_crash {τ : Type} (pt : String → Option τ)
    (filters : List (LogEntry τ → Bool)) (lines : List String)
    (h : ∃ l ∈ lines, lineCrashes pt l) :
    workerRun pt filters lines = .error () := by
  induction lines with
  | nil => simp at h
  | cons line rest ih =>
    unfold workerRun
    obtain ⟨l, hl, hcrash⟩ := h
    rcases List.mem_cons.mp hl with heq | hmem
    · subst heq
      unfold lineCrashes at hcrash
      rw [hcrash]
    · have := ih ⟨l, hmem, hcrash⟩
      rw [this]
      cases hm : mapEntry pt (parseLogLine line) <;> rfl

lemma seqProcessLines_ok_of_no_crash {τ : Type} (pt : String → Option τ)
    (filters : List (LogEntry τ → Bool)) (lines : List String)
    (h : ∀ l ∈ lines, ¬ lineCrashes pt l) :
    seqProcessLines pt filters lines =
      .ok (lines.filterMap (emitLine pt filters)) := by
  induction lines with
  | nil => rfl
  | cons line rest ih =>
    have hline := h line (by simp)
    have hrest := ih fun l hl => h l (by simp [hl])
    unfold seqProcessLines
    unfold lineCrashes at hline
    cases hm : mapEntry pt (parseLogLine line) with
    | outOfRange => exact absurd hm hline
    | reject => simp only [hrest, emitLine, List.filterMap_cons, hm]
    | ok e =>
      simp only [hrest, emitLine, List.filterMap_cons, hm]
      by_cases hinc : includeEntry filters e
      · simp [hinc]
      · simp [hinc]

lemma seqProcessLines_error_of_crash {τ : Type} (pt : String → Option τ)
    (filters : List (LogEntry τ → Bool)) (lines : List String)
    (h : ∃ l ∈ lines, lineCrashes pt l) :
    seqProcessLines pt filters lines = .error () := by
  induction lines with
  | nil => simp at h
  | cons line rest ih =>
    unfold seqProcessLines
    obtain ⟨l, hl, hcrash⟩ := h
    rcases List.mem_cons.mp hl with heq | hmem
    · subst heq
      unfold lineCrashes at hcrash
      rw [hcrash]
    · have := ih ⟨l, hmem, hcrash⟩
      rw [this]
      cases hm : mapEntry pt (parseLogLine line) <;> rfl

lemma runConcurrent_ok_of_no_crash {τ : Type} (pt : String → Option τ)
    (filters : List (LogEntry τ → Bool)) (parts : List (List String))
    (h : ∀ l ∈ parts.flatten, ¬ lineCrashes pt l) :
    runConcurrent pt filters parts =
      .ok (parts.flatten.length,
        parts.flatten.filterMap (emitLine pt filters)) := by
  induction parts with
  | nil => rfl
  | cons part rest ih =>
    have hpart : ∀ l ∈ part, ¬ lineCrashes pt l := fun l hl =>
      h l (by simp only [List.flatten_cons, List.mem_append]; exact Or.inl hl)
    have hrest : ∀ l ∈ rest.flatten, ¬ lineCrashes pt l := fun l hl =>
      h l (by simp only [List.flatten_cons, List.mem_append]; exact Or.inr hl)
    have h1 := workerRun_ok_of_no_crash pt filters part hpart
    have h2 := ih hrest
    unfold runConcurrent at h2 ⊢
    simp only [List.map_cons, combineResults, h1, h2, List.flatten_cons,
      List.length_append, List.filterMap_append]

lemma runConcurrent_error_of_crash {τ : Type} (pt : String → Option τ)
    (filters : List (LogEntry τ → Bool)) (parts : List (List String))
    (h : ∃ l ∈ parts.flatten, lineCrashes pt l) :
    runConcurrent pt filters parts = .error () := by
  induction parts with
  | nil => simp at h
  | cons part rest ih =>
    obtain ⟨l, hl, hcrash⟩ := h
    rw [List.flatten_cons, List.mem_append] at hl
    unfold runConcurrent
    simp only [List.map_cons, combineResults]
    rcases hl with hmem | hmem
    · rw [workerRun_error_of_crash pt filters part ⟨l, hmem, hcrash⟩]
    · have := ih ⟨l, hmem, hcrash⟩
      unfold runConcurrent at this
      rw [this]
      cases workerRun pt filters part with
      | error u => rfl
      | ok r => cases r; rfl

lemma mapEntry_eq_ok {τ : Type} (pt : String → Option τ) (fields : List String)
    (ts : τ) (h25 : 25 ≤ fields.length) (h26 : fields.length ≠ 26)
    (hts : pt (fields.getD 1 "") = some ts) :
    mapEntry pt fields = .ok (mkEntry ts fields) := by
  unfold mapEntry
  rw [if_pos h25, hts]
  by_cases hgt : 25 < fields.length
  · have hlt26 : 26 < fields.length := by omega
    have hget : fields.get? 26 = some (fields.getD 26 "") := by
      rw [List.get?_eq_getElem?, List.getElem?_eq_getElem hlt26,
        List.getD_eq_getElem fields "" hlt26]
    rw [hget]
    by_cases h27 : 27 < fields.length
    · by_cases h28 : 28 < fields.length
      · simp only [if_pos hgt, if_pos h27, if_pos h28, mkEntry, baseEntry]
      · simp only [if_pos hgt, if_pos h27, if_neg h28, mkEntry, baseEntry]
    · have h28 : ¬ 28 < fields.length := by omega
      simp only [if_pos hgt, if_neg h27, if_neg h28, mkEntry, baseEntry]
  · have h27 : ¬ 27 < fields.length := by omega
    have h28 : ¬ 28 < fields.length := by omega
    simp only [if_neg hgt, if_neg h27, if_neg h28, mkEntry, baseEntry]

/-- C1 (code bug, evaluated): tail-field gating of the record mapper.  A
25-token sequence populates no tail field and a 29-token sequence populates
all four, as the claim states; but a 26-token sequence does not populate
only the target-port-list — the mapper's `len(fields) > 25` branch reads the
absent token position 26, a runtime index-out-of-range failure, so presence
is not checked before each tail read.  A 27-token sequence (shown for
contrast) populates the first two tail fields. -/
theorem c1_tail_gating_eval :
    mapEntry parseNatToken ((List.range 26).map toString) = .outOfRange ∧
    tailFields (mapEntry parseNatToken ((List.range 25).map toString)) =
      some ("", "", "", "") ∧
    tailFields (mapEntry parseNatToken ((List.range 29).map toString)) =
      some ("25", "26", "27", "28") ∧
    tailFields (mapEntry parseNatToken ((List.range 27).map toString)) =
      some ("25", "26", "", "") := by
  decide

/-- C4: the record mapper rejects (silently skips the line, producing no
record) exactly when the token sequence has fewer than 25 tokens or the
timestamp parser fails on the token at position 1; and a rejected line still
contributes exactly one increment to the processed-line counter and no
emitted record. -/
theorem c4_reject_condition {τ : Type} (pt : String → Option τ) :
    (∀ fields : List String,
      mapEntry pt fields = .reject ↔
        fields.length < 25 ∨ pt (fields.getD 1 "") = none) ∧
    (∀ (filters : List (LogEntry τ → Bool)) (line : String),
      mapEntry pt (parseLogLine line) = .reject →
        workerRun pt filters [line] = .ok (1, [])) := by
  constructor
  · intro fields
    unfold mapEntry
    by_cases h25 : 25 ≤ fields.length
    · rw [if_pos h25]
      cases hpt : pt (fields.getD 1 "") with
      | none => simp
      | some ts =>
        have hlen : ¬ fields.length < 25 := by omega
        simp only [hlen, false_or]
        constructor
        · intro hL
          by_cases hgt : 25 < fields.length
          · rw [if_pos hgt] at hL
            cases hq : fields.get? 26 <;> rw [hq] at hL <;> simp at hL
          · rw [if_neg hgt] at hL
            simp at hL
        · intro hL
          simp at hL
    · rw [if_neg h25]
      have hlen : fields.length < 25 := by omega
      simp [hlen]
  · intro filters line h
    unfold workerRun
    rw [h]
    rfl

/-- C4 witness: a 20-token line is rejected, and processing it alone yields
counter 1 and no records. -/
theorem c4_reject_condition_witness :
    (((List.range 20).map toString).length < 25 ∨
      parseNatToken (((List.range 20).map toString).getD 1 "") = none) ∧
    workerRun parseNatToken [] [lineN 20] = .ok (1, []) :=
  ⟨((c4_reject_condition parseNatToken).1 ((List.range 20).map toString)).mp
      (by decide),
   (c4_reject_condition parseNatToken).2 [] (lineN 20) (by decide)⟩

/-- C7: a record is emitted exactly when every predicate in the filter list
returns true for it (the loop short-circuits at the first failure), and
removing any single predicate from the list can only preserve or enlarge the
set of matched records: whatever passes the full list passes the reduced
list.  The last conjunct ties inclusion to emission: a line whose tokens map
to a record is emitted by the worker exactly when the chain accepts it. -/
theorem c7_filter_and_semantics {τ : Type}
    (filters : List (LogEntry τ → Bool)) (e : LogEntry τ) :
    (includeEntry filters e = true ↔ ∀ f ∈ filters, f e = true) ∧
    (∀ (l₁ l₂ : List (LogEntry τ → Bool)) (p : LogEntry τ → Bool),
      includeEntry (l₁ ++ p :: l₂) e = true →
        includeEntry (l₁ ++ l₂) e = true) ∧
    (∀ (pt : String → Option τ) (line : String),
      mapEntry pt (parseLogLine line) = .ok e →
        workerRun pt filters [line] =
          .ok (1, if includeEntry filters e then [e] else [])) := by
  refine ⟨?_, ?_, ?_⟩
  · induction filters with
    | nil => simp [includeEntry]
    | cons f fs ih =>
      unfold includeEntry
      by_cases hf : f e
      · simp [hf, ih]
      · simp [hf]
  · intro l₁ l₂ p
    induction l₁ with
    | nil =>
      intro h
      simp only [List.nil_append] at h ⊢
      unfold includeEntry at h
      by_cases hp : p e
      · rwa [if_pos hp] at h
      · rw [if_neg hp] at h; exact absurd h (by simp)
    | cons f l₁' ih =>
      intro h
      simp only [List.cons_append] at h ⊢
      unfold includeEntry at h ⊢
      by_cases hf : f e
      · rw [if_pos hf] at h ⊢; exact ih h
      · rw [if_neg hf] at h; exact absurd h (by simp)
  · intro pt line h
    unfold workerRun
    rw [h]
    by_cases hinc : includeEntry filters e <;> simp [hinc, workerRun]

/-- C7 witness: the empty filter chain accepts a concrete record, and a
concrete 25-token line whose record passes the (empty) chain is emitted with
one counter increment. -/
theorem c7_filter_and_semantics_witness :
    includeEntry ([] : List (LogEntry Nat → Bool)) (mkEntry 1 ((List.range 25).map toString)) = true ∧
    workerRun parseNatToken [] [lineN 25] =
      .ok (1, [mkEntry 1 ((List.range 25).map toString)]) := by
  constructor
  · exact (c7_filter_and_semantics [] (mkEntry 1 ((List.range 25).map toString))).1.mpr (by simp)
  · have h := (c7_filter_and_semantics [] (mkEntry 1 ((List.range 25).map toString))).2.2
      parseNatToken (lineN 25) (by decide)
    simpa [includeEntry] using h

/-- C9: the minimum-target-processing-time filter returns true exactly when
the target-processing-time field parses as a number at least the threshold,
and fails closed: an unparsable field always excludes the record. -/
theorem c9_min_processing_time_fails_closed {τ F : Type} [LinearOrder F]
    (parseFloat : String → Option F) (processingTime : F) (e : LogEntry τ) :
    (FilterByTargetProcessingTime parseFloat processingTime e = true ↔
      ∃ t, parseFloat e.TargetProcessingTime = some t ∧ processingTime ≤ t) ∧
    (parseFloat e.TargetProcessingTime = none →
      FilterByTargetProcessingTime parseFloat processingTime e = false) := by
  unfold FilterByTargetProcessingTime
  cases hp : parseFloat e.TargetProcessingTime with
  | none => simp
  | some t => simp [hp]

/-- C9 witness: with a concrete numeric parser and threshold 3, a record
whose field reads "5" passes and a record whose field reads "x" (unparsable)
is excluded. -/
theorem c9_min_processing_time_witness :
    FilterByTargetProcessingTime (τ := Nat) parseNatToken 3
      { baseEntry 0 [] with TargetProcessingTime := "5" } = true ∧
    FilterByTargetProcessingTime (τ := Nat) parseNatToken 3
      { baseEntry 0 [] with TargetProcessingTime := "x" } = false :=
  ⟨(c9_min_processing_time_fails_closed parseNatToken 3 _).1.mpr
      ⟨5, by decide, by decide⟩,
   (c9_min_processing_time_fails_closed parseNatToken 3 _).2 (by decide)⟩

/-- C6 counterexample: the concrete line `"0 1 2 … 25"` tokenizes to exactly
26 well-formed tokens (no enclosing quotes) whose position-1 token parses,
yet the mapper produces no record at all: it hits the out-of-range read of
token position 26, refuting the round-trip claim for lines of at least 25
tokens as stated. -/
theorem c6_roundtrip_counterexample :
    (parseLogLine (lineN 26)).length = 26 ∧
    (∀ t ∈ parseLogLine (lineN 26), wellFormedToken t) ∧
    parseNatToken ((parseLogLine (lineN 26)).getD 1 "") = some 1 ∧
    mapEntry parseNatToken (parseLogLine (lineN 26)) = .outOfRange := by
  decide

/-- C6 (amended): for every line whose tokenization yields at least 25
well-formed tokens (tokens without enclosing double quotes), a token count
different from 26 (a 26-token line instead crashes on the unchecked read of
position 26), and a timestamp at position 1 accepted by the parser, the
mapper produces a record whose positional fields exactly equal the
corresponding tokens — the tail positions being taken exactly as far as the
count-gated assignments reach, absent ones left empty. -/
theorem c6_roundtrip_amended {τ : Type} (pt : String → Option τ)
    (line : String) (ts : τ)
    (h25 : 25 ≤ (parseLogLine line).length)
    (h26 : (parseLogLine line).length ≠ 26)
    (hwf : ∀ t ∈ parseLogLine line, wellFormedToken t)
    (hts : pt ((parseLogLine line).getD 1 "") = some ts) :
    ∃ e : LogEntry τ, mapEntry pt (parseLogLine line) = .ok e ∧
      e.EntryType = (parseLogLine line).getD 0 "" ∧
      e.Timestamp = ts ∧
      e.ELB = (parseLogLine line).getD 2 "" ∧
      e.Client = (parseLogLine line).getD 3 "" ∧
      e.Target = (parseLogLine line).getD 4 "" ∧
      e.RequestProcessingTime = (parseLogLine line).getD 5 "" ∧
      e.TargetProcessingTime = (parseLogLine line).getD 6 "" ∧
      e.ResponseProcessingTime = (parseLogLine line).getD 7 "" ∧
      e.ELBStatusCode = (parseLogLine line).getD 8 "" ∧
      e.TargetStatusCode = (parseLogLine line).getD 9 "" ∧
      e.ReceivedBytes = (parseLogLine line).getD 10 "" ∧
      e.SentBytes = (parseLogLine line).getD 11 "" ∧
      e.Request = (parseLogLine line).getD 12 "" ∧
      e.UserAgent = (parseLogLine line).getD 13 "" ∧
      e.SSLConnectionCipher = (parseLogLine line).getD 14 "" ∧
      e.SSLProtocol = (parseLogLine line).getD 15 "" ∧
      e.TargetGroupArn = (parseLogLine line).getD 16 "" ∧
      e.TraceID = (parseLogLine line).getD 17 "" ∧
      e.DomainName = (parseLogLine line).getD 18 "" ∧
      e.ChosenCertArn = (parseLogLine line).getD 19 "" ∧
      e.MatchedRulePriority = (parseLogLine line).getD 20 "" ∧
      e.RequestCreationTime = (parseLogLine line).getD 21 "" ∧
      e.ActionsExecuted = (parseLogLine line).getD 22 "" ∧
      e.RedirectURL = (parseLogLine line).getD 23 "" ∧
      e.LambdaErrorReason = (parseLogLine line).getD 24 "" ∧
      e.TargetPortList =
        (if 25 < (parseLogLine line).length
          then (parseLogLine line).getD 25 "" else "") ∧
      e.TargetStatusCodeList =
        (if 25 < (parseLogLine line).length
          then (parseLogLine line).getD 26 "" else "") ∧
      e.Classification =
        (if 27 < (parseLogLine line).length
          then (parseLogLine line).getD 27 "" else "") ∧
      e.ClassficationReason =
        (if 28 < (parseLogLine line).length
          then (parseLogLine line).getD 28 "" else "") := by
  have hmap := mapEntry_eq_ok pt (parseLogLine line) ts h25 h26 hts
  refine ⟨mkEntry ts (parseLogLine line), hmap, ?_⟩
  have hwf12 : wellFormedToken ((parseLogLine line).getD 12 "") := by
    have h12 : 12 < (parseLogLine line).length := by omega
    rw [List.getD_eq_getElem _ "" h12]
    exact hwf _ (List.getElem_mem h12)
  have hwf13 : wellFormedToken ((parseLogLine line).getD 13 "") := by
    have h13 : 13 < (parseLogLine line).length := by omega
    rw [List.getD_eq_getElem _ "" h13]
    exact hwf _ (List.getElem_mem h13)
  simp [mkEntry, baseEntry]
  exact ⟨by simpa using goTrimQuotes_of_wellFormed _ hwf12,
         by simpa using goTrimQuotes_of_wellFormed _ hwf13⟩

/-- C6 witness: the amended round-trip theorem applied to the concrete
29-token line `"0 1 … 28"`: the mapper produces a record whose type, request
and first tail fields are the literal tokens. -/
theorem c6_roundtrip_witness :
    ∃ e : LogEntry Nat, mapEntry parseNatToken (parseLogLine (lineN 29)) = .ok e ∧
      e.EntryType = "0" ∧ e.Request = "12" ∧ e.TargetPortList = "25" ∧
      e.ClassficationReason = "28" := by
  obtain ⟨e, hok, h0, -, -, -, -, -, -, -, -, -, -, -, h12, -, -, -, -, -,
    -, -, -, -, -, -, -, h25t, -, -, h28t⟩ :=
    c6_roundtrip_amended parseNatToken (lineN 29) 1 (by decide) (by decide)
      (by decide) (by decide)
  refine ⟨e, hok, ?_, ?_, ?_, ?_⟩
  · rw [h0]; decide
  · rw [h12]; decide
  · rw [h25t]; decide
  · rw [h28t]; decide

/-- C2: whenever the concurrent pipeline completes on a distribution of the
input lines over workers (every line claimed by exactly one worker — the
flattened distribution is a permutation of the file's lines), the final
value of the shared processed-line counter is exactly the number of lines,
independent of how many workers there are or which lines parse, reject or
fail a filter. -/
theorem c2_processed_counter_eq_line_count {τ : Type}
    (pt : String → Option τ) (filters : List (LogEntry τ → Bool))
    (parts : List (List String)) (lines : List String)
    (hperm : parts.flatten.Perm lines)
    (c : Nat) (out : List (LogEntry τ))
    (hok : runConcurrent pt filters parts = .ok (c, out)) :
    c = lines.length := by
  by_cases hcrash : ∃ l ∈ parts.flatten, lineCrashes pt l
  · rw [runConcurrent_error_of_crash pt filters parts hcrash] at hok
    exact absurd hok (by simp)
  · push_neg at hcrash
    rw [runConcurrent_ok_of_no_crash pt filters parts hcrash] at hok
    have h := Except.ok.inj hok
    have hc : parts.flatten.length = c := congrArg Prod.fst h
    rw [← hc]
    exact hperm.length_eq

/-- C2 witness: two workers given one line each of a two-line input complete
with counter value 2, the number of lines. -/
theorem c2_processed_counter_witness :
    (2 : Nat) = (["x", "y z"] : List String).length :=
  c2_processed_counter_eq_line_count parseNatToken [] [["x"], ["y z"]]
    ["x", "y z"] (by decide) 2 [] (by decide)

/-- C3: for a fixed line list and filter list, the concurrent pipeline under
any distribution of the lines over any number of workers produces exactly
the multiset of matched records that the sequential mode produces on the
lines in order (crashing runs agree as well: one crashes exactly when the
other does); only emission order can differ, which multiset equality
absorbs. -/
theorem c3_concurrent_matches_sequential {τ : Type}
    (pt : String → Option τ) (filters : List (LogEntry τ → Bool))
    (parts : List (List String)) (lines : List String)
    (hperm : parts.flatten.Perm lines) :
    (runConcurrent pt filters parts).map
        (fun r => (r.2 : Multiset (LogEntry τ))) =
      (seqProcessLines pt filters lines).map
        (fun out => (out : Multiset (LogEntry τ))) := by
  by_cases hcrash : ∃ l ∈ lines, lineCrashes pt l
  · obtain ⟨l, hl, hc⟩ := hcrash
    rw [runConcurrent_error_of_crash pt filters parts
        ⟨l, hperm.mem_iff.mpr hl, hc⟩,
      seqProcessLines_error_of_crash pt filters lines ⟨l, hl, hc⟩]
    rfl
  · push_neg at hcrash
    have h1 : ∀ l ∈ parts.flatten, ¬ lineCrashes pt l := fun l hl =>
      hcrash l (hperm.mem_iff.mp hl)
    rw [runConcurrent_ok_of_no_crash pt filters parts h1,
      seqProcessLines_ok_of_no_crash pt filters lines hcrash]
    simp only [Except.map]
    congr 1
    exact Multiset.coe_eq_coe.mpr (hperm.filterMap (emitLine pt filters))

/-- C3 witness: on a concrete two-line input split across two workers, the
concurrent matched-record multiset equals the sequential one. -/
theorem c3_concurrent_matches_witness :
    (runConcurrent parseNatToken [] [["a"], ["b c"]]).map
        (fun r => (r.2 : Multiset (LogEntry Nat))) =
      (seqProcessLines parseNatToken [] ["a", "b c"]).map
        (fun out => (out : Multiset (LogEntry Nat))) :=
  c3_concurrent_matches_sequential parseNatToken [] [["a"], ["b c"]]
    ["a", "b c"] (by decide)

/-- C5 counterexample: the claim says any I/O error other than not-found,
opening or reading the file, is returned to the caller — but a plain
(non-gzip) stream that fails mid-read after delivering one line makes
`ParseLogs` return success over the delivered prefix (one counter
increment, no matched records), not an error: the producer goroutine never
consults `s.Err()` and closing a plain file after a read error reports
nil. -/
theorem c5_missing_file_counterexample :
    ParseLogs gunzipModel parseNatToken
        (fun _ => FileResult.content [97] true) "f" [] =
      .ok (1, ([] : List (LogEntry Nat))) := by
  decide

/-- C5 (amended): `ParseLogs` on a path whose open fails with not-found
returns success with zero records and zero counter increments (a missing
file is empty input, not a failure); any other error opening the file, and
any stream error surfacing during the two-byte probe (the probe's `Read` on
a stream delivering no bytes returns the stream's error, or end-of-file on
a clean empty file), is returned to the caller; but an I/O error arriving
mid-stream after a successful probe on the plain branch is swallowed — the
run is indistinguishable from one on a clean file that ends where the error
occurred. -/
theorem c5_missing_file_amended {τ : Type}
    (gunzip : List Nat → Except PipelineError (List Nat))
    (pt : String → Option τ) (fs fs' : String → FileResult)
    (filename : String) (filters : List (LogEntry τ → Bool)) :
    (fs filename = .absent →
      ParseLogs gunzip pt fs filename filters = .ok (0, [])) ∧
    (fs filename = .ioError →
      ParseLogs gunzip pt fs filename filters = .error .ioFailure) ∧
    (∀ readFails, fs filename = .content [] readFails →
      ParseLogs gunzip pt fs filename filters =
        .error (if readFails then .ioFailure else .probeEof)) ∧
    (∀ bytes : List Nat, fs filename = .content bytes true →
      fs' filename = .content bytes false →
      bytes ≠ [] →
      ¬(bytes.getD 0 0 = 31 ∧ bytes.getD 1 0 = 139) →
      ParseLogs gunzip pt fs filename filters =
        ParseLogs gunzip pt fs' filename filters) := by
  refine ⟨?_, ?_, ?_, ?_⟩
  · intro h; unfold ParseLogs; rw [h]
  · intro h; unfold ParseLogs; rw [h]
  · intro readFails h; unfold ParseLogs; rw [h]
  · intro bytes h h' hne hmagic
    unfold ParseLogs
    rw [h, h']
    cases bytes with
    | nil => exact absurd rfl hne
    | cons b rest =>
      dsimp only
      cases hgr : getReader gunzip (b :: rest) with
      | error e => rfl
      | ok logical =>
        dsimp only
        cases hwr : workerRun pt filters (linesOfBytes logical) with
        | error u => rfl
        | ok r =>
          simp only [Bool.false_eq_true, false_and, if_false]
          rw [if_neg]
          intro hc
          exact hmagic hc.2

/-- C5 witness: over concrete file systems, a missing path yields success
with nothing, an unopenable path yields the error, and a plain one-line
stream failing mid-read runs exactly like the clean one-line stream. -/
theorem c5_missing_file_witness :
    ParseLogs gunzipModel parseNatToken fsModel "gone" [] =
      .ok (0, ([] : List (LogEntry Nat))) ∧
    ParseLogs gunzipModel parseNatToken fsModel "bad" [] =
      .error .ioFailure ∧
    ParseLogs gunzipModel parseNatToken
        (fun _ => FileResult.content [97] true) "f" [] =
      ParseLogs gunzipModel parseNatToken
        (fun _ => FileResult.content [97] false) "f" [] :=
  ⟨(c5_missing_file_amended gunzipModel parseNatToken fsModel fsModel
      "gone" []).1 rfl,
   (c5_missing_file_amended gunzipModel parseNatToken fsModel fsModel
      "bad" []).2.1 rfl,
   (c5_missing_file_amended gunzipModel parseNatToken
      (fun _ => FileResult.content [97] true)
      (fun _ => FileResult.content [97] false) "f" []).2.2.2 [97]
      rfl rfl (by decide) (by decide)⟩

/-- C8: the source reader chooses the decompressing stream exactly when the
two probe bytes are the gzip magic `0x1F 0x8B` (a one-byte file leaves the
second probe byte zero), returning the raw stream from the start otherwise;
and for any correct compressor/decompressor pair whose output carries the
magic prefix, the reader yields the same logical byte stream — hence the
same line stream — whether the content is stored plain or compressed. -/
theorem c8_gzip_detection_and_transparency
    (gunzip : List Nat → Except PipelineError (List Nat)) :
    (∀ bytes : List Nat, bytes ≠ [] →
      ((bytes.getD 0 0 = 31 ∧ bytes.getD 1 0 = 139) →
        getReader gunzip bytes = gunzip bytes) ∧
      (¬(bytes.getD 0 0 = 31 ∧ bytes.getD 1 0 = 139) →
        getReader gunzip bytes = .ok bytes)) ∧
    (∀ compress : List Nat → List Nat,
      (∀ x, gunzip (compress x) = .ok x) →
      (∀ x, (compress x).take 2 = [31, 139]) →
      ∀ content : List Nat,
        ¬(content.getD 0 0 = 31 ∧ content.getD 1 0 = 139) → content ≠ [] →
        getReader gunzip (compress content) = .ok content ∧
        getReader gunzip content = .ok content) := by
  have hprobe : ∀ bytes : List Nat, bytes ≠ [] →
      ((bytes.getD 0 0 = 31 ∧ bytes.getD 1 0 = 139) →
        getReader gunzip bytes = gunzip bytes) ∧
      (¬(bytes.getD 0 0 = 31 ∧ bytes.getD 1 0 = 139) →
        getReader gunzip bytes = .ok bytes) := by
    intro bytes hne
    cases bytes with
    | nil => exact absurd rfl hne
    | cons b rest =>
      unfold getReader
      constructor
      · intro hmagic; rw [if_pos hmagic]
      · intro hmagic; rw [if_neg hmagic]
  refine ⟨hprobe, ?_⟩
  intro compress hround hmagic content hplain hne
  have hshape : (compress content).getD 0 0 = 31 ∧
      (compress content).getD 1 0 = 139 ∧ compress content ≠ [] := by
    have h := hmagic content
    cases hc : compress content with
    | nil => rw [hc] at h; simp at h
    | cons a t =>
      cases t with
      | nil => rw [hc] at h; simp at h
      | cons b t' =>
        rw [hc] at h
        simp only [List.take_succ_cons, List.take_zero] at h
        have ha : a = 31 := by injection h with h1 h2
        have hb : b = 139 := by
          injection h with h1 h2; injection h2 with h3 h4
        subst ha; subst hb
        exact ⟨rfl, rfl, by simp⟩
  constructor
  · rw [(hprobe (compress content) hshape.2.2).1 ⟨hshape.1, hshape.2.1⟩]
    exact hround content
  · exact (hprobe content hne).2 hplain

/-- C8 witness: with a concrete compressor prepending the magic bytes and a
matching decompressor, the reader returns the same stream for the plain and
the compressed copy of the two-byte content `[104, 105]`. -/
theorem c8_gzip_transparency_witness :
    getReader gunzipModel (31 :: 139 :: [104, 105]) = .ok [104, 105] ∧
    getReader gunzipModel [104, 105] = .ok [104, 105] :=
  (c8_gzip_detection_and_transparency gunzipModel).2
    (fun x => 31 :: 139 :: x) (fun _ => rfl) (fun _ => rfl)
    [104, 105] (by decide) (by decide)

/-- C10: an existing zero-byte input file is not treated as empty input:
the two-byte gzip probe in `getReader` fails with end-of-file before any
line is read, and `ParseLogs` returns that error to the caller — unlike a
missing file, which yields success. -/
theorem c10_empty_file_error {τ : Type}
    (gunzip : List Nat → Except PipelineError (List Nat))
    (pt : String → Option τ) (fs : String → FileResult) (filename : String)
    (filters : List (LogEntry τ → Bool))
    (h : fs filename = .content [] false) :
    ParseLogs gunzip pt fs filename filters = .error .probeEof := by
  unfold ParseLogs
  rw [h]
  rfl

/-- C10 witness: a concrete file system whose only file is zero bytes makes
`ParseLogs` fail with the probe end-of-file error. -/
theorem c10_empty_file_witness :
    ParseLogs gunzipModel (parseNatToken) (fun _ => .content [] false)
      "empty" ([] : List (LogEntry Nat → Bool)) = .error .probeEof :=
  c10_empty_file_error gunzipModel parseNatToken
    (fun _ => .content [] false) "empty" [] rfl
